import Mathlib

/-!
Shallow embedding of the face-assignment and layout-compositing engine of
the images-to-cubemap application (src/app/layout.tsx).

Images are opaque handles, modelled as `Nat`.  Filenames are `String`s,
processed as lists of characters.  Asynchronous callback completion orders
are modelled as explicit lists of slot indices.
-/

namespace Cubemap

/-- `type CubeFace = "top" | "left" | "front" | "right" | "back" | "bottom"` -/
inductive CubeFace : Type
  | top
  | left
  | front
  | right
  | back
  | bottom
deriving DecidableEq, Repr, Fintype

/-- The six export-format keys of `EXPORT_FORMATS`. -/
inductive ExportFormat : Type
  | cross
  | crossVertical
  | stripHorizontal
  | stripVertical
  | grid3x2
  | grid2x3
deriving DecidableEq, Repr, Fintype

/-- `interface FormatConfig` — width/height in face units, positions per face. -/
structure FormatConfig : Type where
  name : String
  width : Nat
  height : Nat
  positions : CubeFace → Nat × Nat
deriving Inhabited

open CubeFace in
/-- `const EXPORT_FORMATS: Record<ExportFormat, FormatConfig>` from the source. -/
def EXPORT_FORMATS : ExportFormat → FormatConfig
  | .cross =>
    { name := "Cross (Horizontal)", width := 4, height := 3,
      positions := fun f => match f with
        | top => (1, 0)
        | left => (0, 1)
        | front => (1, 1)
        | right => (2, 1)
        | back => (3, 1)
        | bottom => (1, 2) }
  | .crossVertical =>
    { name := "Cross (Vertical)", width := 3, height := 4,
      positions := fun f => match f with
        | top => (1, 0)
        | left => (0, 1)
        | front => (1, 1)
        | right => (2, 1)
        | bottom => (1, 2)
        | back => (1, 3) }
  | .stripHorizontal =>
    { name := "Strip (Horizontal)", width := 6, height := 1,
      positions := fun f => match f with
        | right => (0, 0)
        | left => (1, 0)
        | top => (2, 0)
        | bottom => (3, 0)
        | front => (4, 0)
        | back => (5, 0) }
  | .stripVertical =>
    { name := "Strip (Vertical)", width := 1, height := 6,
      positions := fun f => match f with
        | right => (0, 0)
        | left => (0, 1)
        | top => (0, 2)
        | bottom => (0, 3)
        | front => (0, 4)
        | back => (0, 5) }
  | .grid3x2 =>
    { name := "Grid (3×2)", width := 3, height := 2,
      positions := fun f => match f with
        | right => (0, 0)
        | left => (1, 0)
        | top => (2, 0)
        | bottom => (0, 1)
        | front => (1, 1)
        | back => (2, 1) }
  | .grid2x3 =>
    { name := "Grid (2×3)", width := 2, height := 3,
      positions := fun f => match f with
        | right => (0, 0)
        | left => (1, 0)
        | top => (0, 1)
        | bottom => (1, 1)
        | front => (0, 2)
        | back => (1, 2) }

/-- The string key of each export format, as used in `cubemap-<key>.png`. -/
def formatKey : ExportFormat → String
  | .cross => "cross"
  | .crossVertical => "cross-vertical"
  | .stripHorizontal => "strip-horizontal"
  | .stripVertical => "strip-vertical"
  | .grid3x2 => "grid-3x2"
  | .grid2x3 => "grid-2x3"

/-- Opaque image handle (a data URL in the source). -/
abbrev Img := Nat

/-- `interface FaceSlot { face: CubeFace; image: string | null }` -/
structure FaceSlot : Type where
  face : CubeFace
  image : Option Img
deriving DecidableEq, Repr

/-- `const INITIAL_SLOTS: FaceSlot[]` — canonical order, all empty. -/
def INITIAL_SLOTS : List FaceSlot :=
  [⟨.top, none⟩, ⟨.left, none⟩, ⟨.front, none⟩, ⟨.right, none⟩,
   ⟨.back, none⟩, ⟨.bottom, none⟩]

/-! ## Face classifier: `detectFaceFromFilename`

The source lowercases the filename, strips the trailing extension
(`/\.[^.]+$/`), and tests an ordered list of regular expressions, returning
the face of the first match.  We embed each regex as a boolean matcher on
`List Char`.
-/

/-- ASCII lowering, what `toLowerCase` does on the ASCII filenames at issue. -/
def lowerChar (c : Char) : Char :=
  if 'A' ≤ c ∧ c ≤ 'Z' then Char.ofNat (c.toNat + 32) else c

/-- The ASCII characters matched by the regex class `\s`. -/
def isJsSpace (c : Char) : Bool :=
  c = ' ' || c = '\t' || c = '\n' || c = '\x0d' || c = '\x0b' || c = '\x0c'

/-- A character of the regex class `[_\-\s]` (the boundary delimiters). -/
def isDelim (c : Char) : Bool :=
  c = '_' || c = '-' || isJsSpace c

/-- Strip the trailing extension: `filename.replace(/\.[^.]+$/, "")`.
The match requires a final dot followed by one or more non-dot characters. -/
def stripExt (s : List Char) : List Char :=
  let r := s.reverse
  let ext := r.takeWhile (fun c => c ≠ '.')
  match r.dropWhile (fun c => c ≠ '.') with
  | '.' :: tail => if ext.isEmpty then s else tail.reverse
  | _ => s

/-- Strip a literal character sequence from the front; `none` when it is not
there. -/
def litAt : List Char → List Char → Option (List Char)
  | [], s => some s
  | _ :: _, [] => none
  | p :: ps, c :: cs => if c = p then litAt ps cs else none

/-- Trailing-side boundary `(?:[_\-\s]|$)`: end of string or a delimiter. -/
def atEnd : List Char → Bool
  | [] => true
  | c :: _ => isDelim c

/-- `[_\-\s]?x(?:[_\-\s]|$)` for an axis letter: the axis either directly or
after one delimiter, then a trailing boundary. -/
def axisSuffix (axis : Char) : List Char → Bool
  | [] => false
  | c :: rest =>
    (c = axis && atEnd rest) ||
    (isDelim c && match rest with
      | c2 :: rest2 => c2 = axis && atEnd rest2
      | [] => false)

/-- Family-1 core `pos(?:itive)?[_\-\s]?x(?:[_\-\s]|$)` (and the `neg`
analogues): the long or the short stem, then the delimited axis letter. -/
def stemAxis (short long : List Char) (axis : Char) (s : List Char) : Bool :=
  (match litAt long s with
    | some r => axisSuffix axis r
    | none => false) ||
  (match litAt short s with
    | some r => axisSuffix axis r
    | none => false)

/-- A literal word followed by a trailing boundary. -/
def wordTok (w : List Char) (s : List Char) : Bool :=
  match litAt w s with
  | some r => atEnd r
  | none => false

/-- Scan the string for a position at a leading boundary `(?:^|[_\-\s])`
where `test` succeeds; `atB` records whether the current position follows
start-of-string or a delimiter. -/
def scanTok (test : List Char → Bool) : Bool → List Char → Bool
  | atB, [] => atB && test []
  | atB, c :: rest => (atB && test (c :: rest)) || scanTok test (isDelim c) rest

/-- A boundary-anchored pattern `(?:^|[_\-\s])...`: some position at a
leading boundary satisfies `test`. -/
def boundaryTok (test : List Char → Bool) (s : List Char) : Bool :=
  scanTok test true s

/-- Unanchored substring occurrence (family-4 patterns such as `/\+x/`). -/
def hasSub (p : List Char) : List Char → Bool
  | [] => (litAt p []).isSome
  | c :: rest => (litAt p (c :: rest)).isSome || hasSub p rest

/-- One entry of the source's ordered `patterns` array. -/
structure Pat : Type where
  test : List Char → Bool
  face : CubeFace

/-- The ordered pattern list of `detectFaceFromFilename`, in source order:
long pos/neg-with-axis forms, two-letter forms, directional words, then the
unanchored sign+axis fallback. -/
def patterns : List Pat :=
  [ ⟨boundaryTok (stemAxis "pos".data "positive".data 'x'), .right⟩,
    ⟨boundaryTok (stemAxis "neg".data "negative".data 'x'), .left⟩,
    ⟨boundaryTok (stemAxis "pos".data "positive".data 'y'), .top⟩,
    ⟨boundaryTok (stemAxis "neg".data "negative".data 'y'), .bottom⟩,
    ⟨boundaryTok (stemAxis "pos".data "positive".data 'z'), .front⟩,
    ⟨boundaryTok (stemAxis "neg".data "negative".data 'z'), .back⟩,
    ⟨boundaryTok (wordTok "px".data), .right⟩,
    ⟨boundaryTok (wordTok "nx".data), .left⟩,
    ⟨boundaryTok (wordTok "py".data), .top⟩,
    ⟨boundaryTok (wordTok "ny".data), .bottom⟩,
    ⟨boundaryTok (wordTok "pz".data), .front⟩,
    ⟨boundaryTok (wordTok "nz".data), .back⟩,
    ⟨boundaryTok (wordTok "right".data), .right⟩,
    ⟨boundaryTok (wordTok "left".data), .left⟩,
    ⟨boundaryTok (fun s => wordTok "top".data s || wordTok "up".data s), .top⟩,
    ⟨boundaryTok (fun s => wordTok "bottom".data s || wordTok "down".data s), .bottom⟩,
    ⟨boundaryTok (fun s => wordTok "front".data s || wordTok "forward".data s), .front⟩,
    ⟨boundaryTok (fun s => wordTok "back".data s || wordTok "backward".data s), .back⟩,
    ⟨hasSub "+x".data, .right⟩,
    ⟨hasSub "-x".data, .left⟩,
    ⟨hasSub "+y".data, .top⟩,
    ⟨hasSub "-y".data, .bottom⟩,
    ⟨hasSub "+z".data, .front⟩,
    ⟨hasSub "-z".data, .back⟩ ]

/-- The source's matching loop: return the face of the first pattern whose
test succeeds, `none` otherwise. -/
def firstMatch : List Pat → List Char → Option CubeFace
  | [], _ => none
  | p :: ps, s => if p.test s then some p.face else firstMatch ps s

/-- Normalisation applied before pattern matching: lowercase, then strip the
trailing extension. -/
def normalizeName (filename : String) : List Char :=
  stripExt (filename.data.map lowerChar)

/-- `function detectFaceFromFilename(filename: string): CubeFace | null` -/
def detectFaceFromFilename (filename : String) : Option CubeFace :=
  firstMatch patterns (normalizeName filename)

example : detectFaceFromFilename "sky_px.png" = some .right := by decide
example : detectFaceFromFilename "sky_nx.png" = some .left := by decide
example : detectFaceFromFilename "inbox.png" = none := by decide
example : detectFaceFromFilename "my-box_px.png" = some .right := by decide
example : detectFaceFromFilename "PX.PNG" = some .right := by decide
example : detectFaceFromFilename "photo1" = none := by decide

/-! ## Slot assignment engine -/

/-- Placeholder used for out-of-range reads; every operation is applied at
indices below the slot-list length. -/
def defaultSlot : FaceSlot := ⟨.top, none⟩

/-- `Array.prototype.map((x, i) => ...)` with the running index explicit. -/
def mapIdxFrom (f : Nat → α → α) : Nat → List α → List α
  | _, [] => []
  | i, a :: as => f i a :: mapIdxFrom f (i + 1) as

/-- `Array.prototype.map((x, i) => ...)`, indices from 0. -/
def jsMapIdx (f : Nat → α → α) (l : List α) : List α := mapIdxFrom f 0 l

/-- `Array.prototype.findIndex((x, i) => ...)` with the running index
explicit; `none` plays the role of `-1`. -/
def findIdxFrom (p : Nat → α → Bool) : Nat → List α → Option Nat
  | _, [] => none
  | i, a :: as => if p i a then some i else findIdxFrom p (i + 1) as

/-- `Array.prototype.findIndex((x, i) => ...)`, indices from 0. -/
def jsFindIdx (p : Nat → α → Bool) (l : List α) : Option Nat := findIdxFrom p 0 l

/-- `Array.prototype.forEach((x, i) => ...)` over a state, with the running
index explicit. -/
def foldlIdx (f : β → Nat → α → β) : β → Nat → List α → β
  | b, _, [] => b
  | b, i, a :: as => foldlIdx f (f b i a) (i + 1) as

/-- `handleFileChange(index, file)` once the reader resolves: overwrite the
image at `index`, leave every other slot alone. -/
def handleFileChange (index : Nat) (img : Img) (slots : List FaceSlot) : List FaceSlot :=
  jsMapIdx (fun i slot => if i = index then { slot with image := some img } else slot) slots

/-- One resolved reader callback of the detected branch of
`handleBulkUpload`: a detected face overwrites that face's slot; an
undetected file goes to the first empty slot (`findIndex((s) => !s.image)`),
and is dropped when none is empty. -/
def applyDetected (prev : List FaceSlot) (face : Option CubeFace) (img : Img) :
    List FaceSlot :=
  match face with
  | some f =>
    prev.map (fun slot => if slot.face = f then { slot with image := some img } else slot)
  | none =>
    match jsFindIdx (fun _ s => s.image.isNone) prev with
    | none => prev
    | some emptyIndex =>
      jsMapIdx (fun i slot =>
        if i = emptyIndex then { slot with image := some img } else slot) prev

/-- One resolved reader callback of the sequential branch: first empty slot
at or after `fileIndex` if any, else the raw `fileIndex`; write only when
the chosen slot is empty. -/
def applySequential (prev : List FaceSlot) (fileIndex : Nat) (img : Img) :
    List FaceSlot :=
  let emptyIndex := jsFindIdx (fun i s => s.image.isNone && fileIndex ≤ i) prev
  let targetIndex := emptyIndex.getD fileIndex
  jsMapIdx (fun i slot =>
    if i = targetIndex ∧ slot.image.isNone then { slot with image := some img } else slot)
    prev

/-- `handleBulkUpload(files)`: truncate to six files, classify each; if any
classified, apply the detected branch per file, else the sequential branch.
Reader callbacks are applied in input order. -/
def handleBulkUpload (files : List (String × Img)) (slots : List FaceSlot) :
    List FaceSlot :=
  let fileArray := files.take 6
  let detectedMappings := fileArray.map (fun fi => (detectFaceFromFilename fi.1, fi.2))
  let hasDetectedFaces := detectedMappings.any (fun m => m.1.isSome)
  if hasDetectedFaces then
    detectedMappings.foldl (fun prev m => applyDetected prev m.1 m.2) slots
  else
    foldlIdx (fun prev i fi => applySequential prev i fi.2) slots 0 fileArray

/-- The slot-swap of `handleDrop` (and of the touch handler): exchange the
`image` fields at the two indices, keeping both `face` fields. -/
def swapImages (slots : List FaceSlot) (draggedIndex targetIndex : Nat) :
    List FaceSlot :=
  let a := slots.getD draggedIndex defaultSlot
  let b := slots.getD targetIndex defaultSlot
  (slots.set draggedIndex { a with image := b.image }).set targetIndex
    { b with image := a.image }

/-- `handleDrop(e, targetIndex)`: a dropped file is assigned directly to the
target slot (its filename unused); otherwise a drag from another slot swaps
the two images; a drag onto itself changes nothing. -/
def handleDrop (files : List (String × Img)) (draggedIndex : Option Nat)
    (targetIndex : Nat) (slots : List FaceSlot) : List FaceSlot :=
  match files with
  | f :: _ => handleFileChange targetIndex f.2 slots
  | [] =>
    match draggedIndex with
    | some d => if d ≠ targetIndex then swapImages slots d targetIndex else slots
    | none => slots

/-- `handleGlobalDrop`: the bulk path runs only for more than one file. -/
def handleGlobalDrop (files : List (String × Img)) (slots : List FaceSlot) :
    List FaceSlot :=
  if files.length > 1 then handleBulkUpload files slots else slots

/-- `clearSlot(index)` — empty one slot. -/
def clearSlot (index : Nat) (slots : List FaceSlot) : List FaceSlot :=
  jsMapIdx (fun i slot => if i = index then { slot with image := none } else slot) slots

/-- `clearAll()` — reset to `INITIAL_SLOTS`. -/
def clearAll (_slots : List FaceSlot) : List FaceSlot := INITIAL_SLOTS

/-! ## Layout compositor: `exportCubemap`

The export is modelled as the trace of its externally visible effects, with
the order in which image `onload` callbacks resolve passed explicitly as a
list of slot indices.
-/

/-- `const FACE_SIZE = 512` -/
def FACE_SIZE : Nat := 512

/-- `slots.filter((s) => s.image).length` -/
def filledCount (slots : List FaceSlot) : Nat :=
  (slots.filter (fun s => s.image.isSome)).length

/-- The externally visible effects of `exportCubemap`. -/
inductive ExportEvent : Type
  | allocCanvas (width height : Nat)
  | alertNothing
  | draw (img : Img) (x y w h : Nat)
  | deliver (filename : String)
deriving DecidableEq, Repr

/-- The `onload` callbacks of the filled slots, resolving in the order given
by `order`; each draws its image into its face's cell and increments
`imagesLoaded`, and the callback that reaches `totalImages` also encodes and
delivers the canvas. -/
def drawPhase (slots : List FaceSlot) (cfg : FormatConfig) (filename : String)
    (total : Nat) : Nat → List Nat → List ExportEvent
  | _, [] => []
  | loaded, k :: rest =>
    match (slots.getD k defaultSlot).image with
    | none => drawPhase slots cfg filename total loaded rest
    | some img =>
      let pos := cfg.positions (slots.getD k defaultSlot).face
      let ev := ExportEvent.draw img (pos.1 * FACE_SIZE) (pos.2 * FACE_SIZE)
        FACE_SIZE FACE_SIZE
      if loaded + 1 = total then
        ev :: .deliver filename :: drawPhase slots cfg filename total (loaded + 1) rest
      else
        ev :: drawPhase slots cfg filename total (loaded + 1) rest

/-- `exportCubemap()`: allocate and clear the canvas, count the filled
slots, alert and stop when none are filled, otherwise run the per-image
callbacks. -/
def exportTrace (slots : List FaceSlot) (fmt : ExportFormat) (order : List Nat) :
    List ExportEvent :=
  let cfg := EXPORT_FORMATS fmt
  let total := filledCount slots
  ExportEvent.allocCanvas (FACE_SIZE * cfg.width) (FACE_SIZE * cfg.height) ::
    (if total = 0 then [ExportEvent.alertNothing]
     else drawPhase slots cfg ("cubemap-" ++ formatKey fmt ++ ".png") total 0 order)

/-- The cell-rectangle draws the export performs: each filled slot's image,
at its face's cell. -/
def cellDraws (slots : List FaceSlot) (cfg : FormatConfig) :
    List ((Nat × Nat) × Img) :=
  slots.filterMap (fun s => s.image.map (fun img => (cfg.positions s.face, img)))

/-- The image a sequence of cell draws leaves in cell `c`: the last draw
targeting `c` wins, `none` (fully transparent) when no draw targets it. -/
def lastDrawAt (c : Nat × Nat) : List ((Nat × Nat) × Img) → Option Img
  | [] => none
  | d :: rest =>
    match lastDrawAt c rest with
    | some img => some img
    | none => if d.1 = c then some d.2 else none

/-- The content of a cell of the output canvas after the export's draws. -/
def cellContent (slots : List FaceSlot) (cfg : FormatConfig) (c : Nat × Nat) :
    Option Img :=
  lastDrawAt c (cellDraws slots cfg)

example :
    handleBulkUpload [("sky_px.png", 1), ("sky_nx.png", 2)] INITIAL_SLOTS =
      [⟨.top, none⟩, ⟨.left, some 2⟩, ⟨.front, none⟩, ⟨.right, some 1⟩,
       ⟨.back, none⟩, ⟨.bottom, none⟩] := by decide

example :
    handleBulkUpload [("a.png", 1), ("b.png", 2), ("c.png", 3)] INITIAL_SLOTS =
      [⟨.top, some 1⟩, ⟨.left, some 2⟩, ⟨.front, some 3⟩, ⟨.right, none⟩,
       ⟨.back, none⟩, ⟨.bottom, none⟩] := by decide

example :
    exportTrace INITIAL_SLOTS .cross [] =
      [.allocCanvas 2048 1536, .alertNothing] := by decide

/-! ## Helper lemmas on the index-passing combinators -/

theorem length_mapIdxFrom (f : Nat → α → α) (n : Nat) (l : List α) :
    (mapIdxFrom f n l).length = l.length := by
  induction l generalizing n with
  | nil => rfl
  | cons a as ih => simp [mapIdxFrom, ih]

theorem getElem?_mapIdxFrom (f : Nat → α → α) (n j : Nat) (l : List α) :
    (mapIdxFrom f n l)[j]? = (l[j]?).map (f (n + j)) := by
  induction l generalizing n j with
  | nil => simp [mapIdxFrom]
  | cons a as ih =>
    cases j with
    | zero => simp [mapIdxFrom]
    | succ j =>
      have h := ih (n + 1) j
      simp only [mapIdxFrom, List.getElem?_cons_succ, h]
      have : n + 1 + j = n + (j + 1) := by omega
      rw [this]

theorem length_jsMapIdx (f : Nat → α → α) (l : List α) :
    (jsMapIdx f l).length = l.length := length_mapIdxFrom f 0 l

theorem getElem?_jsMapIdx (f : Nat → α → α) (j : Nat) (l : List α) :
    (jsMapIdx f l)[j]? = (l[j]?).map (f j) := by
  have h := getElem?_mapIdxFrom f 0 j l
  simpa using h

theorem getD_jsMapIdx (f : Nat → α → α) (l : List α) (j : Nat) (d : α)
    (h : j < l.length) :
    (jsMapIdx f l).getD j d = f j (l.getD j d) := by
  simp [List.getD_eq_getElem?_getD, getElem?_jsMapIdx, List.getElem?_eq_getElem h]

theorem findIdxFrom_some (p : Nat → α → Bool) (d : α) :
    ∀ (l : List α) (n k : Nat), findIdxFrom p n l = some k →
      n ≤ k ∧ k - n < l.length ∧ p k (l.getD (k - n) d) = true ∧
      ∀ j, j < k - n → p (n + j) (l.getD j d) = false := by
  intro l
  induction l with
  | nil => intro n k h; simp [findIdxFrom] at h
  | cons a as ih =>
    intro n k h
    simp only [findIdxFrom] at h
    by_cases hp : p n a = true
    · rw [if_pos hp] at h
      obtain rfl : n = k := Option.some.inj h
      refine ⟨Nat.le_refl _, by simp, ?_, ?_⟩
      · simpa [Nat.sub_self] using hp
      · intro j hj; omega
    · rw [if_neg hp] at h
      obtain ⟨h1, h2, h3, h4⟩ := ih (n + 1) k h
      refine ⟨by omega, by simp; omega, ?_, ?_⟩
      · have hkn : k - n = (k - (n + 1)) + 1 := by omega
        rw [hkn]
        simpa using h3
      · intro j hj
        cases j with
        | zero =>
          simpa using Bool.of_not_eq_true hp
        | succ j' =>
          have hj' : j' < k - (n + 1) := by omega
          have h5 := h4 j' hj'
          have : n + 1 + j' = n + (j' + 1) := by omega
          rw [this] at h5
          simpa using h5

theorem findIdxFrom_none (p : Nat → α → Bool) (d : α) :
    ∀ (l : List α) (n : Nat), findIdxFrom p n l = none →
      ∀ j, j < l.length → p (n + j) (l.getD j d) = false := by
  intro l
  induction l with
  | nil => intro n _ j hj; simp at hj
  | cons a as ih =>
    intro n h j hj
    simp only [findIdxFrom] at h
    by_cases hp : p n a = true
    · rw [if_pos hp] at h; exact absurd h (by simp)
    · rw [if_neg hp] at h
      cases j with
      | zero => simpa using Bool.of_not_eq_true hp
      | succ j' =>
        have h5 := ih (n + 1) h j' (by simpa using hj)
        have : n + 1 + j' = n + (j' + 1) := by omega
        rw [this] at h5
        simpa using h5

theorem jsFindIdx_some (p : Nat → α → Bool) (d : α) (l : List α) (k : Nat)
    (h : jsFindIdx p l = some k) :
    k < l.length ∧ p k (l.getD k d) = true ∧
      ∀ j, j < k → p j (l.getD j d) = false := by
  obtain ⟨-, h2, h3, h4⟩ := findIdxFrom_some p d l 0 k h
  refine ⟨by simpa using h2, by simpa using h3, fun j hj => ?_⟩
  simpa using h4 j (by omega)

theorem jsFindIdx_none (p : Nat → α → Bool) (d : α) (l : List α)
    (h : jsFindIdx p l = none) :
    ∀ j, j < l.length → p j (l.getD j d) = false := by
  intro j hj
  simpa using findIdxFrom_none p d l 0 h j hj

theorem set_getD_self (l : List α) (i : Nat) (d : α) (h : i < l.length) :
    l.set i (l.getD i d) = l := by
  apply List.ext_getElem?
  intro n
  by_cases hn : i = n
  · subst hn
    rw [List.getElem?_set_self h, List.getD_eq_getElem?_getD,
      List.getElem?_eq_getElem h]
    rfl
  · exact List.getElem?_set_ne hn

/-! ## Swap -/

theorem getElem?_swapImages (slots : List FaceSlot) (i j k : Nat)
    (hi : i < slots.length) (hj : j < slots.length) :
    (swapImages slots i j)[k]? =
      if k = j then
        some { slots.getD j defaultSlot with image := (slots.getD i defaultSlot).image }
      else if k = i then
        some { slots.getD i defaultSlot with image := (slots.getD j defaultSlot).image }
      else slots[k]? := by
  unfold swapImages
  by_cases hkj : k = j
  · subst hkj
    rw [List.getElem?_set_self (by simpa using hj)]
    simp
  · rw [List.getElem?_set_ne (fun h => hkj h.symm)]
    by_cases hki : k = i
    · subst hki
      rw [List.getElem?_set_self hi]
      simp [hkj]
    · rw [List.getElem?_set_ne (fun h => hki h.symm)]
      simp [hkj, hki]

theorem length_swapImages (slots : List FaceSlot) (i j : Nat) :
    (swapImages slots i j).length = slots.length := by
  simp [swapImages]

theorem getD_swapImages (slots : List FaceSlot) (i j k : Nat)
    (hi : i < slots.length) (hj : j < slots.length) :
    (swapImages slots i j).getD k defaultSlot =
      if k = j then
        { slots.getD j defaultSlot with image := (slots.getD i defaultSlot).image }
      else if k = i then
        { slots.getD i defaultSlot with image := (slots.getD j defaultSlot).image }
      else slots.getD k defaultSlot := by
  rw [List.getD_eq_getElem?_getD, getElem?_swapImages slots i j k hi hj]
  by_cases hkj : k = j
  · simp [hkj]
  · by_cases hki : k = i
    · have hij : i ≠ j := fun h => hkj (hki.trans h)
      simp [hkj, hki, hij]
    · simp [hkj, hki, List.getD_eq_getElem?_getD]

theorem swapImages_involutive (slots : List FaceSlot) (i j : Nat)
    (hi : i < slots.length) (hj : j < slots.length) :
    swapImages (swapImages slots i j) i j = slots := by
  have hi' : i < (swapImages slots i j).length := by rw [length_swapImages]; exact hi
  have hj' : j < (swapImages slots i j).length := by rw [length_swapImages]; exact hj
  apply List.ext_getElem?
  intro k
  rw [getElem?_swapImages _ i j k hi' hj',
    getD_swapImages slots i j j hi hj, getD_swapImages slots i j i hi hj]
  by_cases hij : i = j
  · subst hij
    by_cases hki : k = i
    · subst hki
      simp [List.getD_eq_getElem?_getD, List.getElem?_eq_getElem hi]
    · simp [hki, getElem?_swapImages slots i i k hi hi]
  · by_cases hkj : k = j
    · subst hkj
      simp [hij, List.getD_eq_getElem?_getD, List.getElem?_eq_getElem hj]
    · by_cases hki : k = i
      · subst hki
        simp [hij, hkj, List.getD_eq_getElem?_getD, List.getElem?_eq_getElem hi]
      · simp [hkj, hki, getElem?_swapImages slots i j k hi hj]

/-- C5: the slot-to-slot swap of `handleDrop` exchanges only the image
contents of the two slots — the length and every slot's `face` identity are
unchanged, slot `i` takes slot `j`'s image and vice versa, every other slot
is untouched — and applying the same swap twice restores the original slot
contents (involution). -/
theorem c5_swap_exchanges_images_and_involutive :
    ∀ (slots : List FaceSlot) (i j : Nat), i < slots.length → j < slots.length →
    (swapImages slots i j).length = slots.length ∧
    (∀ k, ((swapImages slots i j).getD k defaultSlot).face =
      (slots.getD k defaultSlot).face) ∧
    ((swapImages slots i j).getD i defaultSlot).image =
      (slots.getD j defaultSlot).image ∧
    ((swapImages slots i j).getD j defaultSlot).image =
      (slots.getD i defaultSlot).image ∧
    (∀ k, k ≠ i → k ≠ j → (swapImages slots i j).getD k defaultSlot =
      slots.getD k defaultSlot) ∧
    swapImages (swapImages slots i j) i j = slots := by
  intro slots i j hi hj
  refine ⟨length_swapImages slots i j, ?_, ?_, ?_, ?_,
    swapImages_involutive slots i j hi hj⟩
  · intro k
    rw [getD_swapImages slots i j k hi hj]
    by_cases hkj : k = j
    · simp [hkj]
    · by_cases hki : k = i
      · have hij : i ≠ j := fun h => hkj (hki.trans h)
        simp [hkj, hki, hij]
      · simp [hkj, hki]
  · rw [getD_swapImages slots i j i hi hj]
    by_cases hij : i = j <;> simp [hij]
  · rw [getD_swapImages slots i j j hi hj]
    simp
  · intro k hki hkj
    rw [getD_swapImages slots i j k hi hj]
    simp [hki, hkj]

/-- Witness for C5: swapping slots 0 and 1 of a concrete state twice
restores the state. -/
theorem c5_swap_witness :
    swapImages (swapImages [⟨.top, some 5⟩, ⟨.left, some 9⟩, ⟨.front, none⟩,
      ⟨.right, none⟩, ⟨.back, none⟩, ⟨.bottom, none⟩] 0 1) 0 1 =
      [⟨.top, some 5⟩, ⟨.left, some 9⟩, ⟨.front, none⟩, ⟨.right, none⟩,
       ⟨.back, none⟩, ⟨.bottom, none⟩] :=
  (c5_swap_exchanges_images_and_involutive _ 0 1 (by decide) (by decide)).2.2.2.2.2

/-- C10: a drop of exactly one file on the global drop surface leaves every
slot unchanged (the bulk path runs only for more than one file); a file
dropped onto a specific slot is assigned to that slot directly —
`handleFileChange` receives only the image, so the filename classifier plays
no part — and only the target slot's image changes. -/
theorem c10_single_file_drop_paths :
    (∀ (f : String × Img) (slots : List FaceSlot),
      handleGlobalDrop [f] slots = slots) ∧
    (∀ (name : String) (img : Img) (rest : List (String × Img))
      (d : Option Nat) (t : Nat) (slots : List FaceSlot),
      handleDrop ((name, img) :: rest) d t slots = handleFileChange t img slots) ∧
    (∀ (idx : Nat) (img : Img) (slots : List FaceSlot) (j : Nat),
      j < slots.length →
      (handleFileChange idx img slots).getD j defaultSlot =
        if j = idx then { slots.getD j defaultSlot with image := some img }
        else slots.getD j defaultSlot) := by
  refine ⟨fun f slots => ?_, fun name img rest d t slots => rfl,
    fun idx img slots j hj => ?_⟩
  · simp [handleGlobalDrop]
  · rw [handleFileChange, getD_jsMapIdx _ _ _ _ hj]

/-- Witness for C10: assigning image 7 to slot 2 of the empty state puts it
in the front slot. -/
theorem c10_witness :
    (handleFileChange 2 7 INITIAL_SLOTS).getD 2 defaultSlot = ⟨.front, some 7⟩ := by
  rw [c10_single_file_drop_paths.2.2 2 7 INITIAL_SLOTS 2 (by decide)]
  decide

/-- C2 counterexample: against all-empty slots the export still allocates
the canvas — the allocation is the first effect in the trace, ahead of the
"nothing to export" alert, so the claim that no canvas allocation happens
before that check fails. -/
theorem c2_counterexample_alloc_before_check :
    filledCount INITIAL_SLOTS = 0 ∧
    (exportTrace INITIAL_SLOTS .cross []).head? =
      some (.allocCanvas 2048 1536) ∧
    ExportEvent.alertNothing ∈ exportTrace INITIAL_SLOTS .cross [] := by decide

/-- C2 (amended): with zero filled slots the export alerts "nothing to
export" and performs no further work — no draw and no delivery, so no blank
output image — but only after the canvas has been allocated and cleared. -/
theorem c2_empty_export_alerts_and_stops :
    ∀ (slots : List FaceSlot) (fmt : ExportFormat) (order : List Nat),
      filledCount slots = 0 →
      exportTrace slots fmt order =
        [.allocCanvas (FACE_SIZE * (EXPORT_FORMATS fmt).width)
          (FACE_SIZE * (EXPORT_FORMATS fmt).height), .alertNothing] ∧
      (∀ fn, ExportEvent.deliver fn ∉ exportTrace slots fmt order) ∧
      (∀ img x y w h, ExportEvent.draw img x y w h ∉ exportTrace slots fmt order) := by
  intro slots fmt order h
  have he : exportTrace slots fmt order =
      [.allocCanvas (FACE_SIZE * (EXPORT_FORMATS fmt).width)
        (FACE_SIZE * (EXPORT_FORMATS fmt).height), .alertNothing] := by
    simp [exportTrace, h]
  refine ⟨he, fun fn hm => ?_, fun img x y w h hm => ?_⟩
  · rw [he] at hm
    simp at hm
  · rw [he] at hm
    simp at hm

/-- Witness for the amended C2: the all-empty state under the cross layout
yields exactly the allocation and the alert. -/
theorem c2_amended_witness :
    exportTrace INITIAL_SLOTS .cross [] = [.allocCanvas 2048 1536, .alertNothing] := by
  rw [(c2_empty_export_alerts_and_stops INITIAL_SLOTS .cross [] (by decide)).1]
  decide

/-! ## Bulk upload -/

theorem getD_eq_default_of_le (l : List α) (d : α) {n : Nat} (h : l.length ≤ n) :
    l.getD n d = d := by
  simp [List.getD_eq_getElem?_getD, List.getElem?_eq_none h]

theorem foldlIdx_preserves {α β : Type} {P : β → Prop} (f : β → Nat → α → β)
    (hf : ∀ b i a, P b → P (f b i a)) :
    ∀ (L : List α) (b : β) (n : Nat), P b → P (foldlIdx f b n L) := by
  intro L
  induction L with
  | nil => intro b n h; exact h
  | cons a as ih => intro b n h; exact ih (f b n a) (n + 1) (hf b n a h)

theorem applySequential_keeps_filled (prev : List FaceSlot) (i : Nat) (img : Img)
    (j : Nat) (x : Img) (hx : (prev.getD j defaultSlot).image = some x) :
    ((applySequential prev i img).getD j defaultSlot).image = some x := by
  have hj : j < prev.length := by
    by_contra hlt
    rw [getD_eq_default_of_le prev defaultSlot (by omega)] at hx
    simp [defaultSlot] at hx
  unfold applySequential
  rw [getD_jsMapIdx _ _ _ _ hj]
  have hnone : ¬ (prev.getD j defaultSlot).image.isNone = true := by
    rw [hx]; simp
  rw [if_neg (fun hc => hnone hc.2)]
  exact hx

/-- C1: when at least one of the (at most six accepted) files classifies to
a known face, `handleBulkUpload` runs the detected branch for every file:
a file with a known face overwrites that face's slot and touches no other
slot; a file with no detected face goes into the first slot that is empty
when its callback applies, and is dropped when none is empty; in
particular, from all-empty slots, files `sky_px.png` and `sky_nx.png` land
in the right and left slots in either input order. -/
theorem c1_bulk_detected_mode :
    (∀ (files : List (String × Img)) (slots : List FaceSlot),
      (∃ fi ∈ files.take 6, (detectFaceFromFilename fi.1).isSome) →
      handleBulkUpload files slots = (files.take 6).foldl
        (fun prev fi => applyDetected prev (detectFaceFromFilename fi.1) fi.2) slots) ∧
    (∀ (prev : List FaceSlot) (f : CubeFace) (img : Img) (j : Nat),
      j < prev.length →
      (applyDetected prev (some f) img).getD j defaultSlot =
        if (prev.getD j defaultSlot).face = f then
          { prev.getD j defaultSlot with image := some img }
        else prev.getD j defaultSlot) ∧
    (∀ (prev : List FaceSlot) (img : Img),
      (∃ k, k < prev.length ∧ (prev.getD k defaultSlot).image = none ∧
        (∀ j, j < k → (prev.getD j defaultSlot).image ≠ none) ∧
        (applyDetected prev none img).getD k defaultSlot =
          { prev.getD k defaultSlot with image := some img } ∧
        (∀ j, j ≠ k →
          (applyDetected prev none img).getD j defaultSlot = prev.getD j defaultSlot)) ∨
      ((∀ j, j < prev.length → (prev.getD j defaultSlot).image ≠ none) ∧
        applyDetected prev none img = prev)) ∧
    (handleBulkUpload [("sky_px.png", 1), ("sky_nx.png", 2)] INITIAL_SLOTS =
      [⟨.top, none⟩, ⟨.left, some 2⟩, ⟨.front, none⟩, ⟨.right, some 1⟩,
       ⟨.back, none⟩, ⟨.bottom, none⟩] ∧
     handleBulkUpload [("sky_nx.png", 2), ("sky_px.png", 1)] INITIAL_SLOTS =
      [⟨.top, none⟩, ⟨.left, some 2⟩, ⟨.front, none⟩, ⟨.right, some 1⟩,
       ⟨.back, none⟩, ⟨.bottom, none⟩]) := by
  refine ⟨?_, ?_, ?_, by decide, by decide⟩
  · intro files slots hdet
    unfold handleBulkUpload
    have hany : ((files.take 6).map
        (fun fi => (detectFaceFromFilename fi.1, fi.2))).any (fun m => m.1.isSome) = true := by
      rw [List.any_eq_true]
      obtain ⟨fi, hmem, hsome⟩ := hdet
      exact ⟨(detectFaceFromFilename fi.1, fi.2), List.mem_map_of_mem _ hmem, hsome⟩
    rw [if_pos hany, List.foldl_map]
  · intro prev f img j hj
    show (prev.map _).getD j defaultSlot = _
    simp [List.getD_eq_getElem?_getD, List.getElem?_map, List.getElem?_eq_getElem hj]
  · intro prev img
    have hmatch : ∀ r, jsFindIdx (fun _ s => s.image.isNone) prev = r →
        applyDetected prev none img = (match r with
          | none => prev
          | some emptyIndex => jsMapIdx (fun i slot =>
              if i = emptyIndex then { slot with image := some img } else slot) prev) := by
      intro r hr
      unfold applyDetected
      rw [hr]
    cases hf : jsFindIdx (fun _ s => s.image.isNone) prev with
    | none =>
      refine Or.inr ⟨fun j hj hcon => ?_, hmatch none hf⟩
      have h0 := jsFindIdx_none _ defaultSlot prev hf j hj
      replace h0 : (prev.getD j defaultSlot).image.isNone = false := h0
      rw [hcon] at h0
      simp at h0
    | some k =>
      have hdef := hmatch (some k) hf
      obtain ⟨hk, hke, hfirst⟩ := jsFindIdx_some _ defaultSlot prev k hf
      replace hke : (prev.getD k defaultSlot).image.isNone = true := hke
      refine Or.inl ⟨k, hk, Option.isNone_iff_eq_none.mp hke,
        fun j hj hcon => ?_, ?_, fun j hjk => ?_⟩
      · have h0 := hfirst j hj
        replace h0 : (prev.getD j defaultSlot).image.isNone = false := h0
        rw [hcon] at h0
        simp at h0
      · rw [hdef, getD_jsMapIdx _ _ _ _ hk, if_pos rfl]
      · rw [hdef]
        by_cases hjl : j < prev.length
        · rw [getD_jsMapIdx _ _ _ _ hjl, if_neg hjk]
        · rw [getD_eq_default_of_le _ defaultSlot (by rw [length_jsMapIdx]; omega),
            getD_eq_default_of_le prev defaultSlot (by omega)]

/-- Witness for C1: the detected branch fires on a concrete call with one
classifiable filename. -/
theorem c1_witness :
    handleBulkUpload [("sky_px.png", 1)] INITIAL_SLOTS =
      [("sky_px.png", (1 : Img))].foldl
        (fun prev fi => applyDetected prev (detectFaceFromFilename fi.1) fi.2)
        INITIAL_SLOTS := by
  have h := c1_bulk_detected_mode.1 [("sky_px.png", 1)] INITIAL_SLOTS
    ⟨("sky_px.png", 1), by decide, by decide⟩
  simpa using h

/-- C4: when none of the (at most six accepted) files classifies,
`handleBulkUpload` runs the sequential branch: the `i`-th file goes to the
first empty slot at index at least `i` when one exists when its callback
applies (and nothing else changes), otherwise nothing changes at all — in
particular no filled slot's image is ever overwritten, per step and for the
whole call; from all-empty slots, three unclassifiable files fill the first
three canonical slots. -/
theorem c4_bulk_sequential_mode :
    (∀ (files : List (String × Img)) (slots : List FaceSlot),
      (∀ fi ∈ files.take 6, detectFaceFromFilename fi.1 = none) →
      handleBulkUpload files slots =
        foldlIdx (fun prev i fi => applySequential prev i fi.2) slots 0 (files.take 6)) ∧
    (∀ (prev : List FaceSlot) (i : Nat) (img : Img),
      (∃ k, i ≤ k ∧ k < prev.length ∧ (prev.getD k defaultSlot).image = none ∧
        (∀ j, i ≤ j → j < k → (prev.getD j defaultSlot).image ≠ none) ∧
        (applySequential prev i img).getD k defaultSlot =
          { prev.getD k defaultSlot with image := some img } ∧
        (∀ j, j ≠ k →
          (applySequential prev i img).getD j defaultSlot = prev.getD j defaultSlot)) ∨
      ((∀ j, i ≤ j → j < prev.length → (prev.getD j defaultSlot).image ≠ none) ∧
        applySequential prev i img = prev)) ∧
    (∀ (files : List (String × Img)) (slots : List FaceSlot) (j : Nat) (x : Img),
      (∀ fi ∈ files.take 6, detectFaceFromFilename fi.1 = none) →
      (slots.getD j defaultSlot).image = some x →
      ((handleBulkUpload files slots).getD j defaultSlot).image = some x) ∧
    handleBulkUpload [("a.png", 1), ("b.png", 2), ("c.png", 3)] INITIAL_SLOTS =
      [⟨.top, some 1⟩, ⟨.left, some 2⟩, ⟨.front, some 3⟩, ⟨.right, none⟩,
       ⟨.back, none⟩, ⟨.bottom, none⟩] := by
  have hmode : ∀ (files : List (String × Img)) (slots : List FaceSlot),
      (∀ fi ∈ files.take 6, detectFaceFromFilename fi.1 = none) →
      handleBulkUpload files slots =
        foldlIdx (fun prev i fi => applySequential prev i fi.2) slots 0 (files.take 6) := by
    intro files slots hnone
    unfold handleBulkUpload
    have hany : ((files.take 6).map
        (fun fi => (detectFaceFromFilename fi.1, fi.2))).any (fun m => m.1.isSome) = false := by
      rw [List.any_eq_false]
      intro m hm
      obtain ⟨fi, hmem, rfl⟩ := List.mem_map.mp hm
      simp [hnone fi hmem]
    have hcond : ¬ (((files.take 6).map
        (fun fi => (detectFaceFromFilename fi.1, fi.2))).any (fun m => m.1.isSome) = true) := by
      rw [hany]
      exact Bool.false_ne_true
    rw [if_neg hcond]
  refine ⟨hmode, ?_, ?_, by decide⟩
  · intro prev i img
    have hmatch : ∀ r, jsFindIdx (fun k s => s.image.isNone && decide (i ≤ k)) prev = r →
        applySequential prev i img = jsMapIdx (fun n slot =>
          if n = r.getD i ∧ slot.image.isNone then { slot with image := some img }
          else slot) prev := by
      intro r hr
      unfold applySequential
      rw [hr]
    cases hf : jsFindIdx (fun k s => s.image.isNone && decide (i ≤ k)) prev with
    | none =>
      have hdef := hmatch none hf
      refine Or.inr ⟨fun j hij hj hcon => ?_, ?_⟩
      · have h0 := jsFindIdx_none _ defaultSlot prev hf j hj
        replace h0 : ((prev.getD j defaultSlot).image.isNone && decide (i ≤ j)) = false := h0
        rw [hcon] at h0
        simp [hij] at h0
      · rw [hdef]
        apply List.ext_getElem?
        intro n
        rw [getElem?_jsMapIdx]
        by_cases hn : n < prev.length
        · rw [List.getElem?_eq_getElem hn]
          have hg : prev.getD n defaultSlot = prev[n] := by
            rw [List.getD_eq_getElem?_getD, List.getElem?_eq_getElem hn]
            rfl
          have hcon : ¬ (n = (none : Option Nat).getD i ∧ (prev[n]).image.isNone = true) := by
            rintro ⟨hni, hnone2⟩
            have h0 := jsFindIdx_none _ defaultSlot prev hf n hn
            replace h0 : ((prev.getD n defaultSlot).image.isNone && decide (i ≤ n)) = false := h0
            rw [hg, hnone2] at h0
            have hin : i ≤ n := by
              simp only [Option.getD_none] at hni
              omega
            simp [hin] at h0
          show some (if n = (none : Option Nat).getD i ∧ (prev[n]).image.isNone = true then
            { prev[n] with image := some img } else prev[n]) = some (prev[n])
          rw [if_neg hcon]
        · rw [List.getElem?_eq_none (by omega)]
          rfl
    | some k =>
      have hdef := hmatch (some k) hf
      obtain ⟨hk, hke, hfirst⟩ := jsFindIdx_some _ defaultSlot prev k hf
      replace hke : ((prev.getD k defaultSlot).image.isNone && decide (i ≤ k)) = true := hke
      rw [Bool.and_eq_true] at hke
      refine Or.inl ⟨k, of_decide_eq_true hke.2, hk, Option.isNone_iff_eq_none.mp hke.1,
        fun j hij hj hcon => ?_, ?_, fun j hjk => ?_⟩
      · have h0 := hfirst j hj
        replace h0 : ((prev.getD j defaultSlot).image.isNone && decide (i ≤ j)) = false := h0
        rw [hcon] at h0
        simp [hij] at h0
      · rw [hdef, getD_jsMapIdx _ _ _ _ hk, if_pos ⟨rfl, hke.1⟩]
      · rw [hdef]
        by_cases hjl : j < prev.length
        · rw [getD_jsMapIdx _ _ _ _ hjl, if_neg (fun hc => hjk hc.1)]
        · rw [getD_eq_default_of_le _ defaultSlot (by rw [length_jsMapIdx]; omega),
            getD_eq_default_of_le prev defaultSlot (by omega)]
  · intro files slots j x hnone hx
    rw [hmode files slots hnone]
    exact foldlIdx_preserves _
      (fun b i a hb => applySequential_keeps_filled b i a.2 j x hb)
      (files.take 6) slots 0 hx

/-- Witness for C4: the sequential branch fires on a concrete call with no
classifiable filename, and a filled slot survives it. -/
theorem c4_witness :
    ((handleBulkUpload [("a.png", 1)]
      [⟨.top, some 9⟩, ⟨.left, none⟩, ⟨.front, none⟩, ⟨.right, none⟩,
       ⟨.back, none⟩, ⟨.bottom, none⟩]).getD 0 defaultSlot).image = some 9 :=
  c4_bulk_sequential_mode.2.2.1 [("a.png", 1)] _ 0 9 (by decide) (by decide)

/-! ## Classifier order and pattern coverage -/

theorem firstMatch_eq_of (ps : List Pat) (s : List Char) :
    ∀ (i : Fin ps.length), (ps.get i).test s = true →
    (∀ j : Fin ps.length, (j : Nat) < (i : Nat) → (ps.get j).test s = false) →
    firstMatch ps s = some (ps.get i).face := by
  induction ps with
  | nil => intro i; exact absurd i.isLt (by simp)
  | cons p ps ih =>
    intro i hi hfirst
    cases i using Fin.cases with
    | zero =>
      simp only [List.get] at hi
      simp [firstMatch, hi]
    | succ i' =>
      have hp : p.test s = false := by
        have h0 := hfirst ⟨0, by simp⟩ (by simp)
        simpa using h0
      unfold firstMatch
      rw [if_neg (by simp [hp])]
      have hi2 : (ps.get i').test s = true := by simpa using hi
      have hrest : ∀ j : Fin ps.length, (j : Nat) < (i' : Nat) →
          (ps.get j).test s = false := by
        intro j hj
        have h1 := hfirst j.succ (by simpa using hj)
        simpa using h1
      simpa using ih i' hi2 hrest

/-- C3: the classifier returns the face of the first matching rule in the
source's fixed pattern order — whenever rule `i` matches the normalised name
and every earlier rule fails, the result is rule `i`'s face — and the
boundary requirement of families 1–3 makes `inbox.png` classify as Unknown
(no spurious mid-word `x` match) while `my-box_px.png` classifies as Right
through its delimited `px` token. -/
theorem c3_first_match_order_and_boundary :
    (∀ (s : String) (i : Fin patterns.length),
      (patterns.get i).test (normalizeName s) = true →
      (∀ j : Fin patterns.length, (j : Nat) < (i : Nat) →
        (patterns.get j).test (normalizeName s) = false) →
      detectFaceFromFilename s = some (patterns.get i).face) ∧
    detectFaceFromFilename "inbox.png" = none ∧
    detectFaceFromFilename "my-box_px.png" = some CubeFace.right := by
  refine ⟨fun s i hi hfirst => ?_, by decide, by decide⟩
  unfold detectFaceFromFilename
  exact firstMatch_eq_of patterns (normalizeName s) i hi hfirst

/-- Witness for C3: for `sky_px.png` the seventh rule (the boundary-checked
`px` shorthand) is the first to match, so the classifier returns Right. -/
theorem c3_witness :
    detectFaceFromFilename "sky_px.png" = some (patterns.get ⟨6, by decide⟩).face :=
  c3_first_match_order_and_boundary.1 "sky_px.png" ⟨6, by decide⟩ (by decide) (by decide)

/-- C9: each documented pattern string classifies to its documented face, an
unrelated name classifies to Unknown, and classification is case-insensitive
and extension-agnostic (`PX.PNG`, `px.jpg` and `px` agree). -/
theorem c9_documented_patterns_classify :
    (detectFaceFromFilename "px" = some .right ∧
     detectFaceFromFilename "nx" = some .left ∧
     detectFaceFromFilename "py" = some .top ∧
     detectFaceFromFilename "ny" = some .bottom ∧
     detectFaceFromFilename "pz" = some .front ∧
     detectFaceFromFilename "nz" = some .back) ∧
    (detectFaceFromFilename "posx" = some .right ∧
     detectFaceFromFilename "negx" = some .left ∧
     detectFaceFromFilename "posy" = some .top ∧
     detectFaceFromFilename "negy" = some .bottom ∧
     detectFaceFromFilename "posz" = some .front ∧
     detectFaceFromFilename "negz" = some .back) ∧
    (detectFaceFromFilename "+x" = some .right ∧
     detectFaceFromFilename "-x" = some .left ∧
     detectFaceFromFilename "+y" = some .top ∧
     detectFaceFromFilename "-y" = some .bottom ∧
     detectFaceFromFilename "+z" = some .front ∧
     detectFaceFromFilename "-z" = some .back) ∧
    (detectFaceFromFilename "right" = some .right ∧
     detectFaceFromFilename "left" = some .left ∧
     detectFaceFromFilename "top" = some .top ∧
     detectFaceFromFilename "up" = some .top ∧
     detectFaceFromFilename "bottom" = some .bottom ∧
     detectFaceFromFilename "down" = some .bottom ∧
     detectFaceFromFilename "front" = some .front ∧
     detectFaceFromFilename "forward" = some .front ∧
     detectFaceFromFilename "back" = some .back ∧
     detectFaceFromFilename "backward" = some .back) ∧
    detectFaceFromFilename "photo1" = none ∧
    (detectFaceFromFilename "PX.PNG" = some .right ∧
     detectFaceFromFilename "px.jpg" = some .right ∧
     detectFaceFromFilename "px" = some .right) := by
  decide

/-- Modelled from the spec: the six layout geometries exactly as §6 of the
specification enumerates them (width, height, and the face-to-cell map),
for comparison with the source registry `EXPORT_FORMATS`. -/
def specLayoutGeometry : ExportFormat → Nat × Nat × (CubeFace → Nat × Nat)
  | .cross => (4, 3, fun f => match f with
      | .top => (1, 0) | .left => (0, 1) | .front => (1, 1)
      | .right => (2, 1) | .back => (3, 1) | .bottom => (1, 2))
  | .crossVertical => (3, 4, fun f => match f with
      | .top => (1, 0) | .left => (0, 1) | .front => (1, 1)
      | .right => (2, 1) | .bottom => (1, 2) | .back => (1, 3))
  | .stripHorizontal => (6, 1, fun f => match f with
      | .right => (0, 0) | .left => (1, 0) | .top => (2, 0)
      | .bottom => (3, 0) | .front => (4, 0) | .back => (5, 0))
  | .stripVertical => (1, 6, fun f => match f with
      | .right => (0, 0) | .left => (0, 1) | .top => (0, 2)
      | .bottom => (0, 3) | .front => (0, 4) | .back => (0, 5))
  | .grid3x2 => (3, 2, fun f => match f with
      | .right => (0, 0) | .left => (1, 0) | .top => (2, 0)
      | .bottom => (0, 1) | .front => (1, 1) | .back => (2, 1))
  | .grid2x3 => (2, 3, fun f => match f with
      | .right => (0, 0) | .left => (1, 0) | .top => (0, 1)
      | .bottom => (1, 1) | .front => (0, 2) | .back => (1, 2))

/-- C7: the fixed registry holds exactly the geometry the specification
enumerates for the six named layouts, and in every layout the face-to-cell
mapping is total by construction, injective, and lands inside the
width×height grid. -/
theorem c7_layout_registry_matches_spec :
    (∀ fmt : ExportFormat,
      (EXPORT_FORMATS fmt).width = (specLayoutGeometry fmt).1 ∧
      (EXPORT_FORMATS fmt).height = (specLayoutGeometry fmt).2.1 ∧
      ∀ f : CubeFace,
        (EXPORT_FORMATS fmt).positions f = (specLayoutGeometry fmt).2.2 f) ∧
    (∀ (fmt : ExportFormat) (f g : CubeFace),
      (EXPORT_FORMATS fmt).positions f = (EXPORT_FORMATS fmt).positions g → f = g) ∧
    (∀ (fmt : ExportFormat) (f : CubeFace),
      ((EXPORT_FORMATS fmt).positions f).1 < (EXPORT_FORMATS fmt).width ∧
      ((EXPORT_FORMATS fmt).positions f).2 < (EXPORT_FORMATS fmt).height) := by
  refine ⟨by decide, by decide, by decide⟩

/-- Witness for C7: the injectivity implication applied at a concrete layout
and pair of faces. -/
theorem c7_witness : CubeFace.front = CubeFace.front :=
  c7_layout_registry_matches_spec.2.1 .cross .front .front (by decide)

/-! ## Compositor geometry and completion -/

/-- A slot state with only the front face filled. -/
def frontOnly : List FaceSlot :=
  [⟨.top, none⟩, ⟨.left, none⟩, ⟨.front, some 7⟩, ⟨.right, none⟩,
   ⟨.back, none⟩, ⟨.bottom, none⟩]

theorem positions_inj :
    ∀ (fmt : ExportFormat) (f g : CubeFace),
      (EXPORT_FORMATS fmt).positions f = (EXPORT_FORMATS fmt).positions g → f = g := by
  decide

theorem lastDrawAt_eq_none (c : Nat × Nat) :
    ∀ (L : List ((Nat × Nat) × Img)), (∀ d ∈ L, d.1 ≠ c) → lastDrawAt c L = none := by
  intro L
  induction L with
  | nil => intro _; rfl
  | cons d rest ih =>
    intro h
    unfold lastDrawAt
    rw [ih (fun e he => h e (List.mem_cons_of_mem d he))]
    exact if_neg (h d (List.mem_cons_self d rest))

theorem lastDrawAt_some_mem (c : Nat × Nat) :
    ∀ (L : List ((Nat × Nat) × Img)) (img : Img), lastDrawAt c L = some img →
      ∃ d ∈ L, d.1 = c ∧ d.2 = img := by
  intro L
  induction L with
  | nil => intro img h; simp [lastDrawAt] at h
  | cons d rest ih =>
    intro img h
    unfold lastDrawAt at h
    cases hr : lastDrawAt c rest with
    | some i2 =>
      rw [hr] at h
      obtain rfl : i2 = img := Option.some.inj h
      obtain ⟨e, he, hc, hi⟩ := ih i2 hr
      exact ⟨e, List.mem_cons_of_mem d he, hc, hi⟩
    | none =>
      rw [hr] at h
      by_cases hd : d.1 = c
      · rw [if_pos hd] at h
        exact ⟨d, List.mem_cons_self d rest, hd, Option.some.inj h⟩
      · rw [if_neg hd] at h
        exact absurd h (by simp)

theorem lastDrawAt_ne_none_of_mem (c : Nat × Nat) (img : Img) :
    ∀ (L : List ((Nat × Nat) × Img)), (c, img) ∈ L → lastDrawAt c L ≠ none := by
  intro L
  induction L with
  | nil => intro h; simp at h
  | cons d rest ih =>
    intro hmem hnone
    unfold lastDrawAt at hnone
    cases hr : lastDrawAt c rest with
    | some i2 => rw [hr] at hnone; exact absurd hnone (by simp)
    | none =>
      rw [hr] at hnone
      rcases List.mem_cons.mp hmem with hd | hrest
      · rw [← hd] at hnone
        rw [if_pos rfl] at hnone
        exact absurd hnone (by simp)
      · exact ih hrest hr

theorem lastDrawAt_unique (c : Nat × Nat) (img : Img) :
    ∀ (L : List ((Nat × Nat) × Img)), (c, img) ∈ L →
      (∀ d ∈ L, d.1 = c → d.2 = img) → lastDrawAt c L = some img := by
  intro L
  induction L with
  | nil => intro h; simp at h
  | cons d rest ih =>
    intro hmem huniq
    unfold lastDrawAt
    cases hr : lastDrawAt c rest with
    | some i2 =>
      obtain ⟨e, he, hc, hi⟩ := lastDrawAt_some_mem c rest i2 hr
      rw [← hi, huniq e (List.mem_cons_of_mem d he) hc]
    | none =>
      rcases List.mem_cons.mp hmem with hd | hrest
      · rw [← hd, if_pos rfl]
      · exact absurd hr (lastDrawAt_ne_none_of_mem c img rest hrest)

theorem mem_cellDraws_iff (slots : List FaceSlot) (cfg : FormatConfig)
    (d : (Nat × Nat) × Img) :
    d ∈ cellDraws slots cfg ↔
      ∃ s ∈ slots, s.image = some d.2 ∧ cfg.positions s.face = d.1 := by
  unfold cellDraws
  rw [List.mem_filterMap]
  constructor
  · rintro ⟨s, hs, hmap⟩
    rw [Option.map_eq_some'] at hmap
    obtain ⟨i, hi, hd⟩ := hmap
    exact ⟨s, hs, by rw [hi, ← hd], by rw [← hd]⟩
  · rintro ⟨s, hs, hi, hp⟩
    refine ⟨s, hs, ?_⟩
    rw [hi]
    show some (cfg.positions s.face, d.2) = some d
    rw [hp]

theorem draw_mem_drawPhase (slots : List FaceSlot) (cfg : FormatConfig)
    (fn : String) :
    ∀ (order : List Nat) (total loaded k : Nat) (img : Img),
      k ∈ order → (slots.getD k defaultSlot).image = some img →
      ExportEvent.draw img
          (((cfg.positions (slots.getD k defaultSlot).face)).1 * FACE_SIZE)
          (((cfg.positions (slots.getD k defaultSlot).face)).2 * FACE_SIZE)
          FACE_SIZE FACE_SIZE ∈ drawPhase slots cfg fn total loaded order := by
  intro order
  induction order with
  | nil => intro total loaded k img hmem _; simp at hmem
  | cons k0 rest ih =>
    intro total loaded k img hmem himg
    unfold drawPhase
    rcases List.mem_cons.mp hmem with rfl | hrest
    · simp only [himg]
      split
      · exact List.mem_cons_self _ _
      · exact List.mem_cons_self _ _
    · cases hsi : (slots.getD k0 defaultSlot).image with
      | none =>
        simp only [hsi]
        exact ih total loaded k img hrest himg
      | some i0 =>
        simp only [hsi]
        split
        · exact List.mem_cons_of_mem _ (List.mem_cons_of_mem _
            (ih total (loaded + 1) k img hrest himg))
        · exact List.mem_cons_of_mem _ (ih total (loaded + 1) k img hrest himg)

theorem filledCount_pos_of_getD (slots : List FaceSlot) (k : Nat) (img : Img)
    (himg : (slots.getD k defaultSlot).image = some img) :
    0 < filledCount slots := by
  have hk : k < slots.length := by
    by_contra hlt
    rw [getD_eq_default_of_le slots defaultSlot (by omega)] at himg
    simp [defaultSlot] at himg
  have hmem : slots.getD k defaultSlot ∈ slots := by
    rw [List.getD_eq_getElem?_getD, List.getElem?_eq_getElem hk]
    exact List.getElem_mem hk
  have hfil : slots.getD k defaultSlot ∈ slots.filter (fun s => s.image.isSome) := by
    rw [List.mem_filter]
    exact ⟨hmem, by rw [himg]; rfl⟩
  unfold filledCount
  exact List.length_pos.mpr (List.ne_nil_of_mem hfil)

/-- C6: the export canvas is allocated at exactly
`(width*FACE_SIZE, height*FACE_SIZE)` for the selected layout; every filled
slot's image produces a draw scaled to a `FACE_SIZE`-square cell at
`(x*FACE_SIZE, y*FACE_SIZE)` for that face's cell `(x, y)`; a cell mapped by
a filled face shows exactly that face's image and a cell targeted by no
filled face stays fully transparent; with only Front filled under the cross
layout every cell except column 1, row 1 is transparent. -/
theorem c6_composite_cell_geometry :
    (∀ (slots : List FaceSlot) (fmt : ExportFormat) (order : List Nat),
      (exportTrace slots fmt order).head? =
        some (.allocCanvas (FACE_SIZE * (EXPORT_FORMATS fmt).width)
          (FACE_SIZE * (EXPORT_FORMATS fmt).height))) ∧
    (∀ (slots : List FaceSlot) (fmt : ExportFormat) (order : List Nat)
      (k : Nat) (img : Img), k ∈ order →
      (slots.getD k defaultSlot).image = some img →
      ExportEvent.draw img
          ((((EXPORT_FORMATS fmt).positions (slots.getD k defaultSlot).face)).1 * FACE_SIZE)
          ((((EXPORT_FORMATS fmt).positions (slots.getD k defaultSlot).face)).2 * FACE_SIZE)
          FACE_SIZE FACE_SIZE ∈ exportTrace slots fmt order) ∧
    (∀ (slots : List FaceSlot) (fmt : ExportFormat) (f : CubeFace) (img : Img),
      (slots.map FaceSlot.face).Nodup → (⟨f, some img⟩ : FaceSlot) ∈ slots →
      cellContent slots (EXPORT_FORMATS fmt) ((EXPORT_FORMATS fmt).positions f) =
        some img) ∧
    (∀ (slots : List FaceSlot) (cfg : FormatConfig) (c : Nat × Nat),
      (∀ s ∈ slots, s.image.isSome = true → cfg.positions s.face ≠ c) →
      cellContent slots cfg c = none) ∧
    (∀ x, x < 4 → ∀ y, y < 3 →
      cellContent frontOnly (EXPORT_FORMATS .cross) (x, y) =
        if x = 1 ∧ y = 1 then some 7 else none) := by
  refine ⟨fun slots fmt order => ?_, fun slots fmt order k img hmem himg => ?_,
    fun slots fmt f img hnodup hmem => ?_, fun slots cfg c hnone => ?_, by decide⟩
  · simp [exportTrace]
  · have hpos := filledCount_pos_of_getD slots k img himg
    simp only [exportTrace]
    rw [if_neg (by omega)]
    exact List.mem_cons_of_mem _
      (draw_mem_drawPhase slots (EXPORT_FORMATS fmt) _ order (filledCount slots) 0
        k img hmem himg)
  · unfold cellContent
    apply lastDrawAt_unique
    · rw [mem_cellDraws_iff]
      exact ⟨⟨f, some img⟩, hmem, rfl, rfl⟩
    · intro d hd hdc
      rw [mem_cellDraws_iff] at hd
      obtain ⟨s, hs, hsi, hsp⟩ := hd
      have hface : s.face = f := positions_inj fmt s.face f (by rw [hsp, hdc])
      have hseq : s = ⟨f, some img⟩ :=
        List.inj_on_of_nodup_map hnodup hs hmem (by rw [hface])
      rw [hseq] at hsi
      exact Option.some.inj hsi.symm
  · unfold cellContent
    apply lastDrawAt_eq_none
    intro d hd
    rw [mem_cellDraws_iff] at hd
    obtain ⟨s, hs, hsi, hsp⟩ := hd
    have := hnone s hs (by rw [hsi]; rfl)
    rw [← hsp]
    exact this

/-- Witness for C6: with only the front face filled, the cross layout's
front cell carries that image. -/
theorem c6_witness :
    cellContent frontOnly (EXPORT_FORMATS .cross)
      ((EXPORT_FORMATS .cross).positions .front) = some 7 :=
  c6_composite_cell_geometry.2.2.1 frontOnly .cross .front 7 (by decide) (by decide)

/-- Count of completion callbacks in `order` that belong to filled slots. -/
def countFilled (slots : List FaceSlot) (order : List Nat) : Nat :=
  (order.filter (fun k => (slots.getD k defaultSlot).image.isSome)).length

theorem drawPhase_no_deliver (slots : List FaceSlot) (cfg : FormatConfig)
    (fn : String) :
    ∀ (order : List Nat) (total loaded : Nat),
      loaded + countFilled slots order < total →
      ∀ s, ExportEvent.deliver s ∉ drawPhase slots cfg fn total loaded order := by
  intro order
  induction order with
  | nil => intro total loaded _ s hmem; simp [drawPhase] at hmem
  | cons k rest ih =>
    intro total loaded hlt s hmem
    unfold drawPhase at hmem
    cases hsi : (slots.getD k defaultSlot).image with
    | none =>
      simp only [hsi] at hmem
      have hc : countFilled slots (k :: rest) = countFilled slots rest := by
        unfold countFilled
        rw [List.filter_cons, if_neg (by rw [hsi]; simp)]
      rw [hc] at hlt
      exact ih total loaded hlt s hmem
    | some i0 =>
      simp only [hsi] at hmem
      have hc : countFilled slots (k :: rest) = countFilled slots rest + 1 := by
        unfold countFilled
        rw [List.filter_cons, if_pos (by rw [hsi]; rfl)]
        simp
      rw [hc] at hlt
      rw [if_neg (by omega)] at hmem
      rcases List.mem_cons.mp hmem with hd | hrest
      · exact absurd hd (by simp)
      · exact ih total (loaded + 1) (by omega) s hrest

theorem drawPhase_deliver_mem (slots : List FaceSlot) (cfg : FormatConfig)
    (fn : String) :
    ∀ (order : List Nat) (total loaded : Nat),
      loaded + countFilled slots order = total → loaded < total →
      ExportEvent.deliver fn ∈ drawPhase slots cfg fn total loaded order := by
  intro order
  induction order with
  | nil =>
    intro total loaded heq hlt
    unfold countFilled at heq
    simp at heq
    omega
  | cons k rest ih =>
    intro total loaded heq hlt
    unfold drawPhase
    cases hsi : (slots.getD k defaultSlot).image with
    | none =>
      simp only [hsi]
      have hc : countFilled slots (k :: rest) = countFilled slots rest := by
        unfold countFilled
        rw [List.filter_cons, if_neg (by rw [hsi]; simp)]
      rw [hc] at heq
      exact ih total loaded heq hlt
    | some i0 =>
      simp only [hsi]
      have hc : countFilled slots (k :: rest) = countFilled slots rest + 1 := by
        unfold countFilled
        rw [List.filter_cons, if_pos (by rw [hsi]; rfl)]
        simp
      rw [hc] at heq
      by_cases hdone : loaded + 1 = total
      · rw [if_pos hdone]
        exact List.mem_cons_of_mem _ (List.mem_cons_self _ _)
      · rw [if_neg hdone]
        exact List.mem_cons_of_mem _ (ih total (loaded + 1) (by omega) (by omega))

/-- C8: delivery of the output happens only once the number of resolved
image loads for filled slots equals the filled-slot count observed at
export start — with fewer resolved loads no delivery event exists in the
trace, and with all of them resolved the delivery event is present. -/
theorem c8_completion_only_when_all_loaded :
    (∀ (slots : List FaceSlot) (fmt : ExportFormat) (order : List Nat),
      countFilled slots order < filledCount slots →
      ∀ s, ExportEvent.deliver s ∉ exportTrace slots fmt order) ∧
    (∀ (slots : List FaceSlot) (fmt : ExportFormat) (order : List Nat),
      countFilled slots order = filledCount slots → 0 < filledCount slots →
      ExportEvent.deliver ("cubemap-" ++ formatKey fmt ++ ".png") ∈
        exportTrace slots fmt order) := by
  constructor
  · intro slots fmt order hlt s hmem
    simp only [exportTrace] at hmem
    by_cases h0 : filledCount slots = 0
    · rw [if_pos h0] at hmem
      simp at hmem
    · rw [if_neg h0] at hmem
      rcases List.mem_cons.mp hmem with hd | hrest
      · exact absurd hd (by simp)
      · exact drawPhase_no_deliver slots (EXPORT_FORMATS fmt) _ order
          (filledCount slots) 0 (by omega) s hrest
  · intro slots fmt order heq hpos
    simp only [exportTrace]
    rw [if_neg (by omega)]
    exact List.mem_cons_of_mem _
      (drawPhase_deliver_mem slots (EXPORT_FORMATS fmt) _ order
        (filledCount slots) 0 (by omega) (by omega))

/-- Witness for C8: with one filled slot, no delivery before its load
resolves, and delivery once it has. -/
theorem c8_witness :
    (ExportEvent.deliver "cubemap-cross.png" ∉ exportTrace frontOnly .cross []) ∧
    ExportEvent.deliver ("cubemap-" ++ formatKey .cross ++ ".png") ∈
      exportTrace frontOnly .cross [2] :=
  ⟨c8_completion_only_when_all_loaded.1 frontOnly .cross [] (by decide)
      "cubemap-cross.png",
   c8_completion_only_when_all_loaded.2 frontOnly .cross [2] (by decide) (by decide)⟩

end Cubemap
